import Mathlib

/-!
Shallow embedding of the manifest normalization-and-persistence pipeline of
`src/main.py` (function `dmg_save_manifest`, lines 86-128), together with the
helper routines it relies on (Python `str.rstrip`, `list.sort` with a key,
`pathlib` suffix/stem, `str.split`, `dict` assignment, `sorted`, `bytes.hex`,
`struct.pack('<I', n)` and `binascii.crc32`).

Modelling conventions:
* Python `str` values are `List Char`; Python `bytes` values are `List Nat`
  (each element a byte value).  String comparison is lexicographic on code
  points, exactly as in Python; `str.upper` is modelled on the ASCII fragment
  (`Char.toUpper`).
* Python's stable `list.sort(key=k)` is modelled by the stable
  `List.insertionSort` with the comparison `k a ≤ k b` (`orderedInsert` puts
  a new element before the existing elements it ties with, so elements with
  equal keys keep their input order): stability plus sortedness determine the
  result of any stable sort uniquely, so this is exact.
* The parsed `config.vdf` document is modelled by `VdfContent`: either it
  parses and carries a `depots` table (modelled as an association list from
  depot-id string to the `DecryptionKey` hex string), or it parses without a
  `depots` table (e.g. an empty file), or `vdf.load` raises on it.
* The external protobuf/CDN library calls (`decrypt_filenames`,
  `payload.SerializeToString`) are parameters of the embedded function.
* The target directory `depots/<app_id>` is a state value `AppDir`: the list
  of its file names other than `config.vdf`, plus the `config.vdf` content.
* `struct.pack('<I', n)` is modelled with `% 2 ^ 32` wrap-around (payload
  lengths in the program are far below `2 ^ 32`).
* Each run produces a `Run`: the final directory state, the ordered trace of
  file-system mutation events, the final in-memory manifest object, and the
  returned value or the Python exception that aborted the call.
-/

/-- Characters removed by `filename.rstrip('\x00 \n\t')` at main.py line 102. -/
def isPad (c : Char) : Bool :=
  c = '\x00' || c = ' ' || c = '\n' || c = '\t'

/-- Python `s.rstrip('\x00 \n\t')`: drop trailing padding characters. -/
def pyRstrip (s : List Char) : List Char :=
  (s.reverse.dropWhile isPad).reverse

/-- `true` when the string has no trailing padding character. -/
def noTrailingPad (s : List Char) : Bool :=
  match s.getLast? with
  | none => true
  | some c => !(isPad c)

/-- Lexicographic `≤` on byte strings, as Python compares `bytes`. -/
def lexLeN : List Nat → List Nat → Bool
  | [], _ => true
  | _ :: _, [] => false
  | a :: as, b :: bs =>
    if a < b then true
    else if b < a then false
    else lexLeN as bs

/-- Lexicographic `≤` on strings by code point, as Python compares `str`. -/
def lexLeC : List Char → List Char → Bool
  | [], _ => true
  | _ :: _, [] => false
  | a :: as, b :: bs =>
    if a.toNat < b.toNat then true
    else if b.toNat < a.toNat then false
    else lexLeC as bs

/-- Python `s.upper()` on the ASCII fragment. -/
def upperChars (s : List Char) : List Char :=
  s.map Char.toUpper

/-- Decimal digits of a natural number, modelling Python `str(n)`. -/
def natChars (n : Nat) : List Char :=
  (Nat.repr n).data

/-- One lowercase hexadecimal digit. -/
def hexDigit (n : Nat) : Char :=
  if n < 10 then Char.ofNat (48 + n) else Char.ofNat (87 + n)

/-- Python `bytes.hex()`: two lowercase hex digits per byte. -/
def bytesHex (bs : List Nat) : List Char :=
  (bs.map fun b => [hexDigit (b / 16 % 16), hexDigit (b % 16)]).flatten

/-- Python `struct.pack('<I', n)`: 4 bytes, little endian. -/
def packLE32 (n : Nat) : List Nat :=
  [n % 256, n / 256 % 256, n / 65536 % 256, n / 16777216 % 256]

/-- One shift step of the reflected CRC-32 computation (polynomial
`0xEDB88320`), as implemented by `binascii.crc32`. -/
def crc32step (c : Nat) : Nat :=
  if c % 2 = 1 then (c / 2) ^^^ 0xEDB88320 else c / 2

/-- Fold one byte into the CRC-32 accumulator. -/
def crc32byte (c b : Nat) : Nat :=
  (List.range 8).foldl (fun acc _ => crc32step acc) (c ^^^ (b % 256))

/-- `binascii.crc32` over a byte string (initial value `0xFFFFFFFF`, final
complement). -/
def crc32 (data : List Nat) : Nat :=
  (data.foldl crc32byte 0xFFFFFFFF) ^^^ 0xFFFFFFFF

/-- `pathlib` split of a file name into `(stem, suffix)`: the suffix starts at
the last dot, provided that dot is neither the first nor the last character. -/
def pySplitDot (name : List Char) : List Char × List Char :=
  match name.reverse.findIdx? (fun c => c = '.') with
  | none => (name, [])
  | some j =>
    let i := name.length - 1 - j
    if 0 < i ∧ i < name.length - 1 then (name.take i, name.drop i) else (name, [])

/-- `pathlib.PurePath.stem`. -/
def pyStem (name : List Char) : List Char :=
  (pySplitDot name).1

/-- `pathlib.PurePath.suffix`. -/
def pySuffix (name : List Char) : List Char :=
  (pySplitDot name).2

/-- The literal `.manifest` suffix. -/
def mSuffixChars : List Char := ".manifest".data

/-- Python `s.split('_')`. -/
def pySplitU : List Char → List (List Char)
  | [] => [[]]
  | c :: cs =>
    if c = '_' then [] :: pySplitU cs
    else
      match pySplitU cs with
      | [] => [[c]]
      | h :: t => (c :: h) :: t

/-- Decimal value of a digit string (used only to state numeric-order
properties of depot ids). -/
def charsToNat (cs : List Char) : Nat :=
  cs.foldl (fun a c => a * 10 + (c.toNat - 48)) 0

/-- One chunk record of the manifest payload; only the `sha` content hash is
relevant to the embedded code (`mapping.chunks.sort(key=lambda x: x.sha)`). -/
structure Chunk where
  sha : List Nat
deriving DecidableEq

/-- One `payload.mappings` record: a file path and its chunk list. -/
structure FileMapping where
  filename : List Char
  chunks : List Chunk
deriving DecidableEq

/-- The manifest payload: the list of file mappings. -/
structure Payload where
  mappings : List FileMapping
deriving DecidableEq

/-- The manifest metadata; only `crc_clear` is touched by the embedded code. -/
structure Metadata where
  crc_clear : Nat
deriving DecidableEq

/-- The in-memory `CDNDepotManifest` object as used by `dmg_save_manifest`:
identifiers, payload, metadata and the signature blob (cleared to the empty
`ContentManifestSignature()` at line 100). -/
structure Manifest where
  app_id : Nat
  depot_id : Nat
  gid : Nat
  payload : Payload
  metadata : Metadata
  signature : List Nat
deriving DecidableEq

/-- Comparison used by `mapping.chunks.sort(key=lambda x: x.sha)` (line 103). -/
def chunkLe (a b : Chunk) : Bool :=
  lexLeN a.sha b.sha

/-- `chunkLe` as a decidable relation, for the stable sort. -/
def chunkRel (a b : Chunk) : Prop :=
  chunkLe a b = true

instance : DecidableRel chunkRel :=
  fun a b => inferInstanceAs (Decidable (chunkLe a b = true))

/-- Comparison used by
`manifest.payload.mappings.sort(key=lambda x: x.filename.upper())` (line 104). -/
def mappingLe (a b : FileMapping) : Bool :=
  lexLeC (upperChars a.filename) (upperChars b.filename)

/-- `mappingLe` as a decidable relation, for the stable sort. -/
def mappingRel (a b : FileMapping) : Prop :=
  mappingLe a b = true

instance : DecidableRel mappingRel :=
  fun a b => inferInstanceAs (Decidable (mappingLe a b = true))

/-- Lines 101-103: strip trailing padding from the path and sort the chunk
list by content hash, for one mapping. -/
def stripMapping (mp : FileMapping) : FileMapping :=
  ⟨pyRstrip mp.filename, List.insertionSort chunkRel mp.chunks⟩

/-- Lines 101-104 of main.py: the per-mapping normalization loop followed by
the case-insensitive stable sort of the mapping list. -/
def normalizePayload (p : Payload) : Payload :=
  ⟨List.insertionSort mappingRel (p.mappings.map stripMapping)⟩

/-- The key store parsed from `config.vdf`: association list from depot-id
string to the `DecryptionKey` hex string, in document order. -/
def KeyList : Type := List (List Char × List Char)

/-- Content of an on-disk `config.vdf` file, as seen through `vdf.load`. -/
inductive VdfContent
  /-- Parses, and the document has a `depots` table. -/
  | good (depots : List (List Char × List Char))
  /-- Parses, but the document has no `depots` key (e.g. an empty file);
  `d['depots']` then raises `KeyError` at line 112. -/
  | noDepots
  /-- `vdf.load` raises on it (malformed document), line 109. -/
  | corrupt
deriving DecidableEq

/-- The Python exceptions the embedded code can raise. -/
inductive PyErr
  /-- `vdf.load` failed on a malformed `config.vdf` (line 109). -/
  | vdfError
  /-- `d['depots']` on a parsed document lacking that key (line 112). -/
  | keyError
  /-- Tuple unpacking `depot_id_, manifest_gid_ = file.stem.split('_')` did
  not get exactly two parts (line 118). -/
  | valueError
deriving DecidableEq

/-- Python `d[k] = v` on an association list: replace the first binding of `k`
in place, or append a new binding at the end. -/
def dictSet : List (List Char × List Char) → List Char → List Char →
    List (List Char × List Char)
  | [], k, v => [(k, v)]
  | (k', v') :: t, k, v =>
    if k' = k then (k, v) :: t else (k', v') :: dictSet t k v

/-- Comparison used by `sorted(d['depots'].items())` (line 113): Python tuple
order, key first, value on equal keys. -/
def pairLe (a b : List Char × List Char) : Bool :=
  if a.1 = b.1 then lexLeC a.2 b.2 else lexLeC a.1 b.1

/-- `pairLe` as a decidable relation, for the stable sort. -/
def pairRel (a b : List Char × List Char) : Prop :=
  pairLe a b = true

instance : DecidableRel pairRel :=
  fun a b => inferInstanceAs (Decidable (pairLe a b = true))

/-- Lines 112-113 of main.py: insert/overwrite the entry of the current depot
and re-sort the whole `depots` table. -/
def mergeDepots (d0 : List (List Char × List Char)) (did : Nat)
    (key : List Nat) : List (List Char × List Char) :=
  List.insertionSort pairRel (dictSet d0 (natChars did) (bytesHex key))

/-- Lines 107-112 of main.py up to the `d['depots']` access: obtain the
`depots` table from the on-disk `config.vdf` state, or the exception raised. -/
def loadDepots : Option VdfContent → Except PyErr (List (List Char × List Char))
  | none => Except.ok []
  | some (VdfContent.good l) => Except.ok l
  | some VdfContent.noDepots => Except.error PyErr.keyError
  | some VdfContent.corrupt => Except.error PyErr.vdfError

/-- State of the `depots/<app_id>` directory: names of its files other than
`config.vdf`, and the `config.vdf` content when that file exists. -/
structure AppDir where
  files : List (List Char)
  config : Option VdfContent

/-- Outcome of the retention scan: the files left in the directory, the names
deleted (in deletion order) and the exception that aborted the scan, if any. -/
structure ScanOut where
  remaining : List (List Char)
  deleted : List (List Char)
  err : Option PyErr

/-- Lines 115-121 of main.py: iterate over the directory; for each
`.manifest` file split the stem at underscores (raising `ValueError` unless
there are exactly two parts) and unlink it when it belongs to the current
depot with a different generation id. -/
def pruneScan (did gid : Nat) : List (List Char) → ScanOut
  | [] => ⟨[], [], none⟩
  | f :: fs =>
    if pySuffix f = mSuffixChars then
      match pySplitU (pyStem f) with
      | [d, g] =>
        if d = natChars did ∧ g ≠ natChars gid then
          let r := pruneScan did gid fs
          ⟨r.remaining, f :: r.deleted, r.err⟩
        else
          let r := pruneScan did gid fs
          ⟨f :: r.remaining, r.deleted, r.err⟩
      | _ => ⟨f :: fs, [], some PyErr.valueError⟩
    else
      let r := pruneScan did gid fs
      ⟨f :: r.remaining, r.deleted, r.err⟩

/-- A file-system mutation performed by `dmg_save_manifest`, in order. -/
inductive Event
  /-- `file.unlink(missing_ok=True)` of a superseded manifest (line 120). -/
  | deleteFile (name : List Char)
  /-- The write of the new manifest file (lines 124-125). -/
  | writeManifest
  /-- The write of `config.vdf` (lines 126-127). -/
  | writeConfig
deriving DecidableEq

/-- The triple returned by `dmg_save_manifest` on normal return. -/
structure RetVal where
  ok : Bool
  path : List Char
  delete_list : List (List Char)
deriving DecidableEq

/-- Observable outcome of one call to `dmg_save_manifest`: final directory
state, ordered file-system event trace, final in-memory manifest object, and
the returned triple or the exception that propagated out. -/
structure Run where
  dir : AppDir
  trace : List Event
  manifest : Manifest
  result : Except PyErr RetVal

instance : DecidableEq (Except PyErr RetVal) := fun a b =>
  match a, b with
  | Except.ok x, Except.ok y =>
    decidable_of_iff (x = y) ⟨fun h => h ▸ rfl, Except.ok.inj⟩
  | Except.error e, Except.error f =>
    decidable_of_iff (e = f) ⟨fun h => h ▸ rfl, Except.error.inj⟩
  | Except.ok _, Except.error _ => isFalse fun hc => Except.noConfusion hc
  | Except.error _, Except.ok _ => isFalse fun hc => Except.noConfusion hc

/-- The `<depotId>_<generationId>.manifest` file name (line 94). -/
def manifestFileName (did gid : Nat) : List Char :=
  natChars did ++ '_' :: natChars gid ++ mSuffixChars

/-- Lines 86-128 of main.py: the whole `dmg_save_manifest` body.  `df` models
the external `manifest.decrypt_filenames(depot_key)` payload transformation
and `sp` the external protobuf `payload.SerializeToString()`. -/
def dmg_save_manifest (df : List Nat → Payload → Payload)
    (sp : Payload → List Nat) (m : Manifest) (depot_key : List Nat)
    (remove_old : Bool) (dir : AppDir) : Run :=
  let fname := manifestFileName m.depot_id m.gid
  if fname ∈ dir.files then
    ⟨dir, [], m, Except.ok ⟨true, fname, []⟩⟩
  else
    let m2 : Manifest :=
      { m with payload := normalizePayload (df depot_key m.payload),
               signature := [] }
    match loadDepots dir.config with
    | Except.error e => ⟨dir, [], m2, Except.error e⟩
    | Except.ok d0 =>
      let depots1 := mergeDepots d0 m.depot_id depot_key
      let scan :=
        if remove_old then pruneScan m.depot_id m.gid dir.files
        else ⟨dir.files, [], none⟩
      match scan.err with
      | some e =>
        ⟨⟨scan.remaining, dir.config⟩, scan.deleted.map Event.deleteFile,
         m2, Except.error e⟩
      | none =>
        let buffer := sp m2.payload
        let m3 : Manifest :=
          { m2 with metadata := ⟨crc32 (packLE32 buffer.length ++ buffer)⟩ }
        ⟨⟨scan.remaining ++ [fname], some (VdfContent.good depots1)⟩,
         scan.deleted.map Event.deleteFile ++
           [Event.writeManifest, Event.writeConfig],
         m3, Except.ok ⟨true, fname, scan.deleted⟩⟩

/-- `true` when some deletion event occurs strictly before a manifest write in
the trace. -/
def deletionPrecedesWrite : List Event → Bool
  | [] => false
  | Event.deleteFile _ :: r =>
    r.any (fun e => e = Event.writeManifest) || deletionPrecedesWrite r
  | _ :: r => deletionPrecedesWrite r

/-- `true` when a manifest write occurs strictly before some deletion event in
the trace. -/
def writePrecedesDeletion : List Event → Bool
  | [] => false
  | Event.writeManifest :: r =>
    r.any (fun e => match e with | Event.deleteFile _ => true | _ => false) ||
      writePrecedesDeletion r
  | _ :: r => writePrecedesDeletion r

/-! ### Order properties of the comparison functions -/

theorem lexLeN_cons (x y : Nat) (xs ys : List Nat) :
    lexLeN (x :: xs) (y :: ys) = true ↔ x < y ∨ (x = y ∧ lexLeN xs ys = true) := by
  by_cases h : x < y
  · simp [lexLeN, h]
  · by_cases h2 : y < x
    · have hne : x ≠ y := Nat.ne_of_gt h2
      simp [lexLeN, h, h2, hne]
    · have heq : x = y := Nat.le_antisymm (Nat.not_lt.mp h2) (Nat.not_lt.mp h)
      simp [lexLeN, h, h2, heq]

theorem lexLeN_refl (a : List Nat) : lexLeN a a = true := by
  induction a with
  | nil => rfl
  | cons x xs ih => simp [lexLeN_cons, ih]

theorem lexLeN_total (a b : List Nat) : lexLeN a b = true ∨ lexLeN b a = true := by
  induction a generalizing b with
  | nil => left; rfl
  | cons x xs ih =>
    cases b with
    | nil => right; rfl
    | cons y ys =>
      rcases Nat.lt_trichotomy x y with h | h | h
      · left; simp [lexLeN_cons, h]
      · subst h
        rcases ih ys with h2 | h2
        · left; simp [lexLeN_cons, h2]
        · right; simp [lexLeN_cons, h2]
      · right; simp [lexLeN_cons, h]

theorem lexLeN_trans (a b c : List Nat) (h1 : lexLeN a b = true)
    (h2 : lexLeN b c = true) : lexLeN a c = true := by
  induction a generalizing b c with
  | nil => rfl
  | cons x xs ih =>
    cases b with
    | nil => simp [lexLeN] at h1
    | cons y ys =>
      cases c with
      | nil => simp [lexLeN] at h2
      | cons z zs =>
        rw [lexLeN_cons] at h1 h2 ⊢
        rcases h1 with h1 | ⟨rfl, h1⟩
        · rcases h2 with h2 | ⟨rfl, h2⟩
          · exact Or.inl (Nat.lt_trans h1 h2)
          · exact Or.inl h1
        · rcases h2 with h2 | ⟨rfl, h2⟩
          · exact Or.inl h2
          · exact Or.inr ⟨rfl, ih ys zs h1 h2⟩

theorem lexLeN_antisymm (a b : List Nat) (h1 : lexLeN a b = true)
    (h2 : lexLeN b a = true) : a = b := by
  induction a generalizing b with
  | nil =>
    cases b with
    | nil => rfl
    | cons y ys => simp [lexLeN] at h2
  | cons x xs ih =>
    cases b with
    | nil => simp [lexLeN] at h1
    | cons y ys =>
      rw [lexLeN_cons] at h1 h2
      rcases h1 with h1 | ⟨rfl, h1⟩
      · rcases h2 with h2 | ⟨rfl, h2⟩
        · exact absurd (Nat.lt_trans h1 h2) (Nat.lt_irrefl _)
        · exact absurd h1 (Nat.lt_irrefl _)
      · rcases h2 with h2 | ⟨_, h2⟩
        · exact absurd h2 (Nat.lt_irrefl _)
        · rw [ih ys h1 h2]

theorem lexLeC_eq_lexLeN (a b : List Char) :
    lexLeC a b = lexLeN (a.map Char.toNat) (b.map Char.toNat) := by
  induction a generalizing b with
  | nil => cases b <;> rfl
  | cons x xs ih =>
    cases b with
    | nil => rfl
    | cons y ys => simp [lexLeC, lexLeN, ih]

theorem charListToNat_inj (a b : List Char)
    (h : a.map Char.toNat = b.map Char.toNat) : a = b := by
  induction a generalizing b with
  | nil => cases b with
    | nil => rfl
    | cons y ys => simp at h
  | cons x xs ih =>
    cases b with
    | nil => simp at h
    | cons y ys =>
      simp only [List.map_cons, List.cons.injEq] at h
      have hx : x = y :=
        Char.eq_of_val_eq (UInt32.eq_of_val_eq (Fin.eq_of_val_eq h.1))
      rw [hx, ih ys h.2]

theorem lexLeC_refl (a : List Char) : lexLeC a a = true := by
  rw [lexLeC_eq_lexLeN]; exact lexLeN_refl _

theorem lexLeC_total (a b : List Char) : lexLeC a b = true ∨ lexLeC b a = true := by
  rw [lexLeC_eq_lexLeN, lexLeC_eq_lexLeN]; exact lexLeN_total _ _

theorem lexLeC_trans (a b c : List Char) (h1 : lexLeC a b = true)
    (h2 : lexLeC b c = true) : lexLeC a c = true := by
  rw [lexLeC_eq_lexLeN] at h1 h2 ⊢
  exact lexLeN_trans _ _ _ h1 h2

theorem lexLeC_antisymm (a b : List Char) (h1 : lexLeC a b = true)
    (h2 : lexLeC b a = true) : a = b := by
  rw [lexLeC_eq_lexLeN] at h1 h2
  exact charListToNat_inj _ _ (lexLeN_antisymm _ _ h1 h2)

theorem chunkLe_trans (a b c : Chunk) (h1 : chunkLe a b = true)
    (h2 : chunkLe b c = true) : chunkLe a c = true :=
  lexLeN_trans _ _ _ h1 h2

theorem chunkLe_total (a b : Chunk) : (chunkLe a b || chunkLe b a) = true := by
  rcases lexLeN_total a.sha b.sha with h | h <;> simp [chunkLe, h]

theorem mappingLe_trans (a b c : FileMapping) (h1 : mappingLe a b = true)
    (h2 : mappingLe b c = true) : mappingLe a c = true :=
  lexLeC_trans _ _ _ h1 h2

theorem mappingLe_total (a b : FileMapping) :
    (mappingLe a b || mappingLe b a) = true := by
  rcases lexLeC_total (upperChars a.filename) (upperChars b.filename) with h | h <;>
    simp [mappingLe, h]

theorem pairLe_trans (a b c : List Char × List Char) (h1 : pairLe a b = true)
    (h2 : pairLe b c = true) : pairLe a c = true := by
  unfold pairLe at h1 h2 ⊢
  by_cases hab : a.1 = b.1
  · by_cases hbc : b.1 = c.1
    · simp [hab, hbc, hab.trans hbc] at h1 h2 ⊢
      exact lexLeC_trans _ _ _ h1 h2
    · have hac : a.1 ≠ c.1 := hab ▸ hbc
      simp [hab, hbc, hac] at h1 h2 ⊢
      exact hab ▸ h2
  · by_cases hbc : b.1 = c.1
    · have hac : a.1 ≠ c.1 := fun h => hab (h.trans hbc.symm)
      simp [hab, hbc, hac] at h1 h2 ⊢
      exact hbc ▸ h1
    · simp [hab, hbc] at h1 h2
      by_cases hac : a.1 = c.1
      · exact absurd (hac ▸ lexLeC_antisymm _ _ h2 (hac ▸ h1) :
          b.1 = a.1) (fun h => hab h.symm)
      · simpa [pairLe, hac] using lexLeC_trans _ _ _ h1 h2

theorem pairLe_total (a b : List Char × List Char) :
    (pairLe a b || pairLe b a) = true := by
  unfold pairLe
  by_cases hab : a.1 = b.1
  · have hba : b.1 = a.1 := hab.symm
    rw [if_pos hab, if_pos hba]
    rcases lexLeC_total a.2 b.2 with h | h <;> simp [h]
  · have hba : b.1 ≠ a.1 := fun h => hab h.symm
    rw [if_neg hab, if_neg hba]
    rcases lexLeC_total a.1 b.1 with h | h <;> simp [h]

instance : IsTotal Chunk chunkRel :=
  ⟨fun a b => (Bool.or_eq_true _ _).mp (chunkLe_total a b)⟩

instance : IsTrans Chunk chunkRel :=
  ⟨fun a b c => chunkLe_trans a b c⟩

instance : IsTotal FileMapping mappingRel :=
  ⟨fun a b => (Bool.or_eq_true _ _).mp (mappingLe_total a b)⟩

instance : IsTrans FileMapping mappingRel :=
  ⟨fun a b c => mappingLe_trans a b c⟩

instance : IsTotal (List Char × List Char) pairRel :=
  ⟨fun a b => (Bool.or_eq_true _ _).mp (pairLe_total a b)⟩

instance : IsTrans (List Char × List Char) pairRel :=
  ⟨fun a b c => pairLe_trans a b c⟩

/-! ### Properties of `pyRstrip` -/

theorem head?_dropWhile_not {α : Type} (p : α → Bool) (l : List α) (a : α)
    (h : (l.dropWhile p).head? = some a) : p a = false := by
  induction l with
  | nil => simp [List.dropWhile] at h
  | cons x xs ih =>
    rw [List.dropWhile_cons] at h
    by_cases hx : p x = true
    · exact ih (by simpa [hx] using h)
    · have : x = a := by simpa [hx] using h
      subst this
      exact Bool.not_eq_true _ ▸ hx

theorem pyRstrip_noTrailingPad (s : List Char) :
    noTrailingPad (pyRstrip s) = true := by
  unfold pyRstrip noTrailingPad
  rw [List.getLast?_reverse]
  cases hh : (s.reverse.dropWhile isPad).head? with
  | none => rfl
  | some c => simp [head?_dropWhile_not isPad s.reverse c hh]

theorem pyRstrip_append (s : List Char) :
    s = pyRstrip s ++ (s.reverse.takeWhile isPad).reverse := by
  unfold pyRstrip
  rw [← List.reverse_append, List.takeWhile_append_dropWhile, List.reverse_reverse]

theorem pyRstrip_dropped_pad (s : List Char) (c : Char)
    (h : c ∈ (s.reverse.takeWhile isPad).reverse) : isPad c = true :=
  List.mem_takeWhile_imp (List.mem_reverse.mp h)

/-! ### Properties of `dictSet` -/

theorem dictSet_mem_self (l : List (List Char × List Char))
    (k v : List Char) : (k, v) ∈ dictSet l k v := by
  induction l with
  | nil => simp [dictSet]
  | cons p t ih =>
    by_cases h : p.1 = k <;> simp [dictSet, h, ih]

theorem dictSet_mem_of_mem (l : List (List Char × List Char))
    (k v : List Char) (p : List Char × List Char) (hp : p ∈ l)
    (hne : p.1 ≠ k) : p ∈ dictSet l k v := by
  induction l with
  | nil => simp at hp
  | cons q t ih =>
    rw [List.mem_cons] at hp
    by_cases h : q.1 = k
    · simp only [dictSet, if_pos h]
      rcases hp with hp | hp
      · exact absurd (by rw [hp]; exact h) hne
      · exact List.mem_cons_of_mem _ hp
    · simp only [dictSet, if_neg h]
      rcases hp with hp | hp
      · rw [hp]; exact List.mem_cons_self _ _
      · exact List.mem_cons_of_mem _ (ih hp)

theorem keys_dictSet_sub (l : List (List Char × List Char))
    (k v x : List Char) (hx : x ∈ (dictSet l k v).map Prod.fst) :
    x = k ∨ x ∈ l.map Prod.fst := by
  induction l with
  | nil => simp [dictSet] at hx; exact Or.inl hx
  | cons q t ih =>
    by_cases h : q.1 = k
    · simp only [dictSet, if_pos h, List.map_cons, List.mem_cons] at hx
      rcases hx with hx | hx
      · exact Or.inl hx
      · exact Or.inr (by simp [hx])
    · simp only [dictSet, if_neg h, List.map_cons, List.mem_cons] at hx
      rcases hx with hx | hx
      · exact Or.inr (by simp [hx])
      · rcases ih hx with h2 | h2
        · exact Or.inl h2
        · exact Or.inr (by simp [h2])

theorem dictSet_keys_nodup (l : List (List Char × List Char))
    (k v : List Char) (nd : (l.map Prod.fst).Nodup) :
    ((dictSet l k v).map Prod.fst).Nodup := by
  induction l with
  | nil => simp [dictSet]
  | cons q t ih =>
    simp only [List.map_cons, List.nodup_cons] at nd
    by_cases h : q.1 = k
    · simp only [dictSet, if_pos h, List.map_cons, List.nodup_cons]
      exact ⟨h ▸ nd.1, nd.2⟩
    · simp only [dictSet, if_neg h, List.map_cons, List.nodup_cons]
      refine ⟨fun hmem => ?_, ih nd.2⟩
      rcases keys_dictSet_sub t k v q.1 hmem with h2 | h2
      · exact h h2
      · exact nd.1 h2

theorem mem_dictSet (l : List (List Char × List Char))
    (k v : List Char) (nd : (l.map Prod.fst).Nodup)
    (p : List Char × List Char) (hp : p ∈ dictSet l k v) :
    p = (k, v) ∨ (p ∈ l ∧ p.1 ≠ k) := by
  induction l with
  | nil => simp [dictSet] at hp; exact Or.inl hp
  | cons q t ih =>
    simp only [List.map_cons, List.nodup_cons] at nd
    by_cases h : q.1 = k
    · simp only [dictSet, if_pos h, List.mem_cons] at hp
      rcases hp with hp | hp
      · exact Or.inl hp
      · refine Or.inr ⟨List.mem_cons_of_mem _ hp, fun hpk => ?_⟩
        exact (h ▸ nd.1) (hpk ▸ (List.mem_map_of_mem Prod.fst hp))
    · simp only [dictSet, if_neg h, List.mem_cons] at hp
      rcases hp with hp | hp
      · exact Or.inr ⟨hp ▸ List.mem_cons_self q t, hp ▸ h⟩
      · rcases ih nd.2 hp with h2 | h2
        · exact Or.inl h2
        · exact Or.inr ⟨List.mem_cons_of_mem _ h2.1, h2.2⟩

theorem dictSet_eq_self (l : List (List Char × List Char))
    (k v : List Char) (nd : (l.map Prod.fst).Nodup)
    (hmem : (k, v) ∈ l) : dictSet l k v = l := by
  induction l with
  | nil => simp at hmem
  | cons q t ih =>
    simp only [List.map_cons, List.nodup_cons] at nd
    rw [List.mem_cons] at hmem
    by_cases h : q.1 = k
    · simp only [dictSet, if_pos h]
      rcases hmem with hq | hmem
      · rw [hq]
      · exact absurd (h.symm ▸ List.mem_map_of_mem Prod.fst hmem) nd.1
    · simp only [dictSet, if_neg h]
      rcases hmem with hq | hmem
      · exact absurd (congrArg Prod.fst hq).symm h
      · rw [ih nd.2 hmem]

/-! ### Properties of the retention scan -/

theorem pruneScan_deleted_spec (did gid : Nat) (files : List (List Char)) :
    ∀ f ∈ (pruneScan did gid files).deleted,
      pySuffix f = mSuffixChars ∧ f ∈ files := by
  induction files with
  | nil => simp [pruneScan]
  | cons g fs ih =>
    intro f hf
    by_cases hsuf : pySuffix g = mSuffixChars
    · rcases hsp : pySplitU (pyStem g) with _ | ⟨d, _ | ⟨g2, _ | ⟨x, r3⟩⟩⟩
      · simp only [pruneScan, if_pos hsuf, hsp] at hf
        simp at hf
      · simp only [pruneScan, if_pos hsuf, hsp] at hf
        simp at hf
      · by_cases hc : d = natChars did ∧ g2 ≠ natChars gid
        · simp only [pruneScan, if_pos hsuf, hsp, if_pos hc] at hf
          rw [List.mem_cons] at hf
          rcases hf with hf | hf
          · exact ⟨by rw [hf]; exact hsuf, by rw [hf]; exact List.mem_cons_self _ _⟩
          · rcases ih f hf with ⟨h1, h2⟩
            exact ⟨h1, List.mem_cons_of_mem _ h2⟩
        · simp only [pruneScan, if_pos hsuf, hsp, if_neg hc] at hf
          rcases ih f hf with ⟨h1, h2⟩
          exact ⟨h1, List.mem_cons_of_mem _ h2⟩
      · simp only [pruneScan, if_pos hsuf, hsp] at hf
        simp at hf
    · simp only [pruneScan, if_neg hsuf] at hf
      rcases ih f hf with ⟨h1, h2⟩
      exact ⟨h1, List.mem_cons_of_mem _ h2⟩

theorem pruneScan_keeps (did gid : Nat) (files : List (List Char))
    (f : List Char) (hmem : f ∈ files) (hsuf : pySuffix f ≠ mSuffixChars) :
    f ∈ (pruneScan did gid files).remaining := by
  induction files with
  | nil => simp at hmem
  | cons g fs ih =>
    rw [List.mem_cons] at hmem
    by_cases hg : pySuffix g = mSuffixChars
    · have hfg : f ≠ g := fun h => hsuf (h ▸ hg)
      have hf : f ∈ fs := hmem.resolve_left hfg
      rcases hsp : pySplitU (pyStem g) with _ | ⟨d, _ | ⟨g2, _ | ⟨x, r3⟩⟩⟩
      · simp only [pruneScan, if_pos hg, hsp]
        exact List.mem_cons_of_mem _ hf
      · simp only [pruneScan, if_pos hg, hsp]
        exact List.mem_cons_of_mem _ hf
      · by_cases hc : d = natChars did ∧ g2 ≠ natChars gid
        · simp only [pruneScan, if_pos hg, hsp, if_pos hc]
          exact ih hf
        · simp only [pruneScan, if_pos hg, hsp, if_neg hc]
          exact List.mem_cons_of_mem _ (ih hf)
      · simp only [pruneScan, if_pos hg, hsp]
        exact List.mem_cons_of_mem _ hf
    · simp only [pruneScan, if_neg hg]
      rcases hmem with hf | hf
      · rw [hf]; exact List.mem_cons_self _ _
      · exact List.mem_cons_of_mem _ (ih hf)

theorem pruneScan_noerr (did gid : Nat) (files : List (List Char))
    (h : ∀ f ∈ files, pySuffix f = mSuffixChars →
      (pySplitU (pyStem f)).length = 2) :
    (pruneScan did gid files).err = none := by
  induction files with
  | nil => rfl
  | cons g fs ih =>
    have hrec := ih fun f hf hs => h f (List.mem_cons_of_mem _ hf) hs
    by_cases hg : pySuffix g = mSuffixChars
    · have hlen := h g (List.mem_cons_self _ _) hg
      rcases hsp : pySplitU (pyStem g) with _ | ⟨d, _ | ⟨g2, _ | ⟨x, r3⟩⟩⟩
      · rw [hsp] at hlen; simp at hlen
      · rw [hsp] at hlen; simp at hlen
      · by_cases hc : d = natChars did ∧ g2 ≠ natChars gid
        · simp only [pruneScan, if_pos hg, hsp, if_pos hc]
          exact hrec
        · simp only [pruneScan, if_pos hg, hsp, if_neg hc]
          exact hrec
      · rw [hsp] at hlen; simp at hlen
    · simp only [pruneScan, if_neg hg]
      exact hrec

/-! ### Properties of the event traces -/

theorem wpd_cons_delete (n : List Char) (l : List Event) :
    writePrecedesDeletion (Event.deleteFile n :: l) = writePrecedesDeletion l :=
  rfl

theorem wpd_append_deletes (ds : List (List Char)) (tail : List Event) :
    writePrecedesDeletion (ds.map Event.deleteFile ++ tail) =
      writePrecedesDeletion tail := by
  induction ds with
  | nil => rfl
  | cons d ds ih =>
    rw [List.map_cons, List.cons_append, wpd_cons_delete, ih]

theorem wpd_deletes_only (ds : List (List Char)) :
    writePrecedesDeletion (ds.map Event.deleteFile) = false := by
  rw [← List.append_nil (ds.map Event.deleteFile), wpd_append_deletes]
  rfl

/-! ### Concrete fixtures used by counterexamples and witnesses -/

/-- Identity stand-in for the external `decrypt_filenames` payload transform. -/
def idDecrypt : List Nat → Payload → Payload := fun _ p => p

/-- Trivial stand-in for the external protobuf serialization. -/
def emptySerial : Payload → List Nat := fun _ => []

/-- An old manifest file of depot 1, generation 5. -/
def fileOld : List Char := "1_5.manifest".data

/-- A `.manifest` file whose stem has three underscore-separated parts. -/
def fileBad : List Char := "1_2_3.manifest".data

/-- A file without the `.manifest` suffix. -/
def fileTxt : List Char := "notes.txt".data

/-- The spec scenario path with two trailing NUL bytes. -/
def padPath : List Char := "data/file.bin\x00\x00".data

/-- The spec scenario path after stripping. -/
def cleanPath : List Char := "data/file.bin".data

/-- A path that differs from `pathUpperR` only by case. -/
def pathLowerR : List Char := "a/readme".data

/-- A path that differs from `pathLowerR` only by case. -/
def pathUpperR : List Char := "a/Readme".data

/-- The depot-id string `9`. -/
def depotStr9 : List Char := "9".data

/-- The depot-id string `10`. -/
def depotStr10 : List Char := "10".data

/-- A hex key string. -/
def hexStrAA : List Char := "aa".data

/-- A hex key string. -/
def hexStrBB : List Char := "bb".data

/-- The spec scenario key `deadbeef` as bytes. -/
def keyDeadbeef : List Nat := [0xde, 0xad, 0xbe, 0xef]

/-- A manifest of app 10, depot 1, generation 7, with an empty payload. -/
def mfx17 : Manifest := ⟨10, 1, 7, ⟨[]⟩, ⟨0⟩, []⟩

/-- A directory holding only the superseded manifest of depot 1. -/
def dirOld : AppDir := ⟨[fileOld], none⟩

/-- A directory holding only the malformed manifest file name. -/
def dirBad : AppDir := ⟨[fileBad], none⟩

/-- A directory whose `config.vdf` exists but does not parse. -/
def dirCorrupt : AppDir := ⟨[], some VdfContent.corrupt⟩

/-- A manifest of depot 42 (spec scenario for the key-store merge). -/
def mfx42 : Manifest := ⟨480, 42, 123, ⟨[]⟩, ⟨0⟩, []⟩

/-- A payload with one mapping whose path carries trailing NUL padding. -/
def payloadPad : Payload := ⟨[⟨padPath, []⟩]⟩

/-- A payload with two mappings whose paths differ only by case. -/
def payloadDup : Payload := ⟨[⟨pathLowerR, []⟩, ⟨pathUpperR, []⟩]⟩

/-- A key store holding only depot 9. -/
def store9 : List (List Char × List Char) := [(depotStr9, hexStrAA)]

/-- The depot-id string `42`. -/
def depotStr42 : List Char := "42".data

/-- The hex rendering of `keyDeadbeef`. -/
def hexDeadbeef : List Char := "deadbeef".data

/-! ### Claim C1 -/

/-- C1, counterexample: saving the new manifest of depot 1, generation 7,
with old-manifest removal enabled and the superseded `1_5.manifest` on disk,
produces the event trace delete - write manifest - write config: the deletion
of the superseded file happens strictly BEFORE the new manifest is written,
contradicting the claim that no deletion precedes the write. -/
theorem c1_counterexample :
    (dmg_save_manifest idDecrypt emptySerial mfx17 [] true dirOld).trace
      = [Event.deleteFile fileOld, Event.writeManifest, Event.writeConfig] ∧
    deletionPrecedesWrite
      (dmg_save_manifest idDecrypt emptySerial mfx17 [] true dirOld).trace
      = true := by
  decide

/-- C1 (amended): the order is the opposite of the claimed one.  In every run
of the save operation, every deletion of a superseded manifest file happens
strictly before the write of the new manifest file: no manifest write ever
precedes a deletion in the file-system event trace. -/
theorem c1_amended (df : List Nat → Payload → Payload)
    (sp : Payload → List Nat) (m : Manifest) (key : List Nat)
    (ro : Bool) (dir : AppDir) :
    writePrecedesDeletion
      (dmg_save_manifest df sp m key ro dir).trace = false := by
  simp only [dmg_save_manifest]
  split
  · rfl
  · split
    · rfl
    · split
      · exact wpd_deletes_only _
      · rw [wpd_append_deletes]
        rfl

/-! ### Claim C2 -/

/-- C2, counterexample: merging depot 42 with key `deadbeef` into a corrupt
key store is fatal, not recovered.  `dmg_save_manifest` wraps no error
handling around `vdf.load` (main.py line 109), so when `config.vdf` exists
but does not parse the run aborts with the parse error instead of starting
from an empty store. -/
theorem c2_counterexample :
    (dmg_save_manifest idDecrypt emptySerial mfx42 keyDeadbeef false
      dirCorrupt).result = Except.error PyErr.vdfError := by
  decide

/-- C2 (amended): only ABSENCE of the key-store document is recovered by
starting from an empty store: saving a depot-42 manifest with key `deadbeef`
into a directory with no `config.vdf` succeeds and writes a store containing
exactly the entry `42 -> deadbeef`.  (A `config.vdf` that exists but fails to
parse, or parses without a `depots` table - e.g. an empty file - aborts the
save with an error instead.) -/
theorem c2_amended (df : List Nat → Payload → Payload)
    (sp : Payload → List Nat) (appid gid : Nat) (pl : Payload)
    (md : Metadata) (sg : List Nat) (ro : Bool) :
    (dmg_save_manifest df sp ⟨appid, 42, gid, pl, md, sg⟩ keyDeadbeef ro
        ⟨[], none⟩).result.isOk = true ∧
    (dmg_save_manifest df sp ⟨appid, 42, gid, pl, md, sg⟩ keyDeadbeef ro
        ⟨[], none⟩).dir.config
      = some (VdfContent.good [(depotStr42, hexDeadbeef)]) := by
  cases ro <;>
    exact ⟨rfl, by
      show some (VdfContent.good (mergeDepots [] 42 keyDeadbeef))
        = some (VdfContent.good [(depotStr42, hexDeadbeef)])
      decide⟩

/-! ### Claim C3 -/

/-- C3, counterexample: the retention scan does raise on a malformed name.
With removal enabled, a directory containing `1_2_3.manifest` - a `.manifest`
file whose stem splits into three underscore-delimited parts instead of two -
makes the save operation abort with a `ValueError` from the tuple unpacking
at main.py line 118, instead of ignoring the file. -/
theorem c3_counterexample :
    (pySplitU (pyStem fileBad)).length = 3 ∧
    (dmg_save_manifest idDecrypt emptySerial mfx17 [] true dirBad).result
      = Except.error PyErr.valueError := by
  decide

/-- C3 (amended): only files NOT carrying the `.manifest` suffix are ignored
without error by the retention scan: such a file is never deleted and stays
in the directory.  A file with the `.manifest` suffix whose stem does not
split into exactly two underscore-delimited parts instead raises an error;
the scan completes without error when every `.manifest` file's stem has
exactly two such parts. -/
theorem c3_amended (did gid : Nat) (files : List (List Char)) :
    (∀ f ∈ files, pySuffix f ≠ mSuffixChars →
      f ∈ (pruneScan did gid files).remaining ∧
        f ∉ (pruneScan did gid files).deleted) ∧
    ((∀ f ∈ files, pySuffix f = mSuffixChars →
        (pySplitU (pyStem f)).length = 2) →
      (pruneScan did gid files).err = none) := by
  constructor
  · intro f hf hsuf
    refine ⟨pruneScan_keeps did gid files f hf hsuf, fun hdel => ?_⟩
    exact hsuf (pruneScan_deleted_spec did gid files f hdel).1
  · exact pruneScan_noerr did gid files

/-- Witness for C3 (amended) at a concrete directory holding a `.txt` file
and a well-formed manifest file. -/
theorem c3_amended_witness :
    (fileTxt ∈ (pruneScan 1 7 [fileTxt, fileOld]).remaining ∧
      fileTxt ∉ (pruneScan 1 7 [fileTxt, fileOld]).deleted) ∧
    (pruneScan 1 7 [fileTxt, fileOld]).err = none :=
  ⟨(c3_amended 1 7 [fileTxt, fileOld]).1 fileTxt (by decide) (by decide),
   (c3_amended 1 7 [fileTxt, fileOld]).2 (by decide)⟩

/-! ### Claim C4 -/

/-- C4, counterexample: the normalizer performs no deduplication.  For the
payload with entries `a/readme` and `a/Readme` - stripped paths that differ
only by case - the normalized entry list still holds BOTH entries, and its
list of uppercased paths has a duplicate; nothing is collapsed to one
canonical entry. -/
theorem c4_counterexample :
    (normalizePayload payloadDup).mappings.length = 2 ∧
    ¬ ((normalizePayload payloadDup).mappings.map fun mp =>
        upperChars mp.filename).Nodup := by
  decide

/-- C4 (amended): the entry list is NOT made unique: normalization returns
exactly a permutation of the stripped input entries, so entries whose
stripped paths differ only by case are all retained and the entry count is
preserved; no entry is ever collapsed away. -/
theorem c4_amended (p : Payload) :
    (normalizePayload p).mappings.Perm (p.mappings.map stripMapping) ∧
    (normalizePayload p).mappings.length = p.mappings.length := by
  have hp : (normalizePayload p).mappings.Perm (p.mappings.map stripMapping) :=
    List.perm_insertionSort mappingRel _
  exact ⟨hp, by rw [hp.length_eq, List.length_map]⟩

/-! ### Claim C5 -/

/-- Keys of `pairLe`-related pairs are `lexLeC`-related. -/
theorem pairLe_keys (a b : List Char × List Char) (h : pairLe a b = true) :
    lexLeC a.1 b.1 = true := by
  unfold pairLe at h
  by_cases he : a.1 = b.1
  · rw [he]; exact lexLeC_refl _
  · rwa [if_neg he] at h

/-- C5, counterexample: the resulting store is NOT sorted ascending by depot
id.  Merging the key of depot 10 into a store holding depot 9 yields the
entry order `[10, 9]`: `sorted()` at main.py line 113 compares the depot-id
STRINGS lexicographically, and the string `10` sorts before the string `9`,
so the numeric depot ids come out in descending order. -/
theorem c5_counterexample :
    mergeDepots store9 10 [0xbb]
      = [(depotStr10, hexStrBB), (depotStr9, hexStrAA)] ∧
    ¬ ((mergeDepots store9 10 [0xbb]).map fun q =>
        charsToNat q.1).Pairwise (· ≤ ·) := by
  decide

/-- C5 (amended): merging a key for one depot inserts or overwrites exactly
that depot's entry; every entry of any other depot is preserved unchanged,
and nothing else appears in the result; merging the same key twice is
idempotent; and the resulting store is sorted ascending by the LEXICOGRAPHIC
order of the decimal depot-id strings (the order `sorted()` actually applies;
the string `10` sorts before the string `9`), not by numeric depot id. -/
theorem c5_amended (d0 : List (List Char × List Char)) (did : Nat)
    (key : List Nat) (nd : (d0.map Prod.fst).Nodup) :
    (natChars did, bytesHex key) ∈ mergeDepots d0 did key ∧
    (∀ q ∈ d0, q.1 ≠ natChars did → q ∈ mergeDepots d0 did key) ∧
    (∀ q ∈ mergeDepots d0 did key,
      q = (natChars did, bytesHex key) ∨ (q ∈ d0 ∧ q.1 ≠ natChars did)) ∧
    mergeDepots (mergeDepots d0 did key) did key = mergeDepots d0 did key ∧
    ((mergeDepots d0 did key).map Prod.fst).Pairwise
      (fun a b => lexLeC a b = true) := by
  have hperm : (mergeDepots d0 did key).Perm
      (dictSet d0 (natChars did) (bytesHex key)) :=
    List.perm_insertionSort pairRel _
  have hsort : (mergeDepots d0 did key).Pairwise pairRel :=
    List.sorted_insertionSort pairRel _
  have hmem : (natChars did, bytesHex key) ∈ mergeDepots d0 did key :=
    hperm.mem_iff.mpr (dictSet_mem_self d0 _ _)
  have ndm : ((mergeDepots d0 did key).map Prod.fst).Nodup :=
    ((hperm.map Prod.fst).symm).nodup (dictSet_keys_nodup d0 _ _ nd)
  refine ⟨hmem, ?_, ?_, ?_, ?_⟩
  · intro q hq hne
    exact hperm.mem_iff.mpr (dictSet_mem_of_mem d0 _ _ q hq hne)
  · intro q hq
    exact mem_dictSet d0 _ _ nd q (hperm.mem_iff.mp hq)
  · show List.insertionSort pairRel
        (dictSet (mergeDepots d0 did key) (natChars did) (bytesHex key))
      = mergeDepots d0 did key
    rw [dictSet_eq_self _ _ _ ndm hmem]
    exact List.Sorted.insertionSort_eq hsort
  · exact List.pairwise_map.mpr (hsort.imp fun h => pairLe_keys _ _ h)

/-- Witness for C5 (amended): merging the key `bb` of depot 10 into the store
holding depot 9. -/
theorem c5_amended_witness :
    (natChars 10, bytesHex [0xbb]) ∈ mergeDepots store9 10 [0xbb] ∧
    (∀ q ∈ store9, q.1 ≠ natChars 10 → q ∈ mergeDepots store9 10 [0xbb]) ∧
    (∀ q ∈ mergeDepots store9 10 [0xbb],
      q = (natChars 10, bytesHex [0xbb]) ∨ (q ∈ store9 ∧ q.1 ≠ natChars 10)) ∧
    mergeDepots (mergeDepots store9 10 [0xbb]) 10 [0xbb]
      = mergeDepots store9 10 [0xbb] ∧
    ((mergeDepots store9 10 [0xbb]).map Prod.fst).Pairwise
      (fun a b => lexLeC a b = true) :=
  c5_amended store9 10 [0xbb] (by decide)

/-! ### Claim C6 -/

/-- The already-published manifest file name of depot 1, generation 7. -/
def fileNew : List Char := "1_7.manifest".data

/-- A directory already holding `1_7.manifest` and a key store. -/
def dirHave : AppDir := ⟨[fileNew], some (VdfContent.good store9)⟩

/-- C6: when the `<depotId>_<generationId>.manifest` file already exists the
save operation returns success immediately with an empty delete list, leaves
the in-memory manifest un-normalized, performs no file-system event and
leaves the whole directory untouched; and every successful save leaves the
target file on disk, so a second call on the same manifest is exactly that
no-op. -/
theorem c6_idempotent (df : List Nat → Payload → Payload)
    (sp : Payload → List Nat) (m : Manifest) (key : List Nat)
    (ro : Bool) (dir : AppDir) :
    (manifestFileName m.depot_id m.gid ∈ dir.files →
      dmg_save_manifest df sp m key ro dir =
        ⟨dir, [], m,
         Except.ok ⟨true, manifestFileName m.depot_id m.gid, []⟩⟩) ∧
    ((dmg_save_manifest df sp m key ro dir).result.isOk = true →
      manifestFileName m.depot_id m.gid
        ∈ (dmg_save_manifest df sp m key ro dir).dir.files) := by
  constructor
  · intro h
    simp only [dmg_save_manifest]
    rw [if_pos h]
  · simp only [dmg_save_manifest]
    split
    · rename_i h
      intro _
      exact h
    · split
      · intro hok
        simp [Except.isOk, Except.toBool] at hok
      · split
        · intro hok
          simp [Except.isOk, Except.toBool] at hok
        · intro _
          exact List.mem_append_right _ (List.mem_singleton.mpr rfl)

/-- Witness for C6: the early exit on a directory already holding
`1_7.manifest`, and the target file existing after a fresh successful save. -/
theorem c6_idempotent_witness :
    dmg_save_manifest idDecrypt emptySerial mfx17 [] false dirHave =
      ⟨dirHave, [], mfx17,
       Except.ok ⟨true, manifestFileName mfx17.depot_id mfx17.gid, []⟩⟩ ∧
    manifestFileName mfx17.depot_id mfx17.gid
      ∈ (dmg_save_manifest idDecrypt emptySerial mfx17 [] false
          ⟨[], none⟩).dir.files :=
  ⟨(c6_idempotent idDecrypt emptySerial mfx17 [] false dirHave).1 (by decide),
   (c6_idempotent idDecrypt emptySerial mfx17 [] false ⟨[], none⟩).2 (by decide)⟩

/-! ### Claim C7 -/

/-- C7: whenever the manifest file is actually written (the run's trace
contains the manifest-write event), the written manifest's payload is the
normalized payload, and its stored `crc_clear` equals CRC-32 over the 4-byte
little-endian length of the serialized normalized payload concatenated with
that serialization (main.py lines 122-123). -/
theorem c7_checksum (df : List Nat → Payload → Payload)
    (sp : Payload → List Nat) (m : Manifest) (key : List Nat)
    (ro : Bool) (dir : AppDir)
    (h : Event.writeManifest ∈ (dmg_save_manifest df sp m key ro dir).trace) :
    (dmg_save_manifest df sp m key ro dir).manifest.payload
      = normalizePayload (df key m.payload) ∧
    (dmg_save_manifest df sp m key ro dir).manifest.metadata.crc_clear
      = crc32 (packLE32
          (sp (dmg_save_manifest df sp m key ro dir).manifest.payload).length
          ++ sp (dmg_save_manifest df sp m key ro dir).manifest.payload) := by
  revert h
  simp only [dmg_save_manifest]
  split
  · intro h
    simp at h
  · split
    · intro h
      simp at h
    · split
      · intro h
        exfalso
        rcases List.mem_map.mp h with ⟨a, _, ha⟩
        exact Event.noConfusion ha
      · intro _
        exact ⟨rfl, rfl⟩

/-- Witness for C7: a fresh successful save into an empty directory. -/
theorem c7_checksum_witness :
    (dmg_save_manifest idDecrypt emptySerial mfx17 [] false
        ⟨[], none⟩).manifest.payload
      = normalizePayload (idDecrypt [] mfx17.payload) ∧
    (dmg_save_manifest idDecrypt emptySerial mfx17 [] false
        ⟨[], none⟩).manifest.metadata.crc_clear
      = crc32 (packLE32
          (emptySerial (dmg_save_manifest idDecrypt emptySerial mfx17 [] false
            ⟨[], none⟩).manifest.payload).length
          ++ emptySerial (dmg_save_manifest idDecrypt emptySerial mfx17 [] false
            ⟨[], none⟩).manifest.payload) :=
  c7_checksum idDecrypt emptySerial mfx17 [] false ⟨[], none⟩ (by decide)

/-! ### Claim C8 -/

/-- C8: in every normalized manifest the entry list is ordered by the
case-insensitive (uppercase-normalized) path comparison, and inside every
entry the chunk list is ordered ascending by chunk content hash. -/
theorem c8_sorted (p : Payload) :
    (normalizePayload p).mappings.Pairwise (fun a b =>
      lexLeC (upperChars a.filename) (upperChars b.filename) = true) ∧
    ∀ mp ∈ (normalizePayload p).mappings,
      mp.chunks.Pairwise (fun c d => lexLeN c.sha d.sha = true) := by
  constructor
  · exact List.sorted_insertionSort mappingRel _
  · intro mp hmp
    have hmem : mp ∈ p.mappings.map stripMapping :=
      (List.perm_insertionSort mappingRel _).mem_iff.mp hmp
    rcases List.mem_map.mp hmem with ⟨mp0, _, rfl⟩
    exact List.sorted_insertionSort chunkRel _

/-- Witness for C8 at the two-entry payload. -/
theorem c8_sorted_witness :
    (normalizePayload payloadDup).mappings.Pairwise (fun a b =>
      lexLeC (upperChars a.filename) (upperChars b.filename) = true) ∧
    ∀ mp ∈ (normalizePayload payloadDup).mappings,
      mp.chunks.Pairwise (fun c d => lexLeN c.sha d.sha = true) :=
  c8_sorted payloadDup

/-! ### Claim C9 -/

/-- C9: every entry path of a normalized manifest is the original path with
all trailing NUL, space, newline and tab characters stripped: the normalized
path has no trailing padding character, and the original path is exactly the
normalized path followed by padding characters only. -/
theorem c9_stripped (p : Payload) (mp : FileMapping)
    (hmp : mp ∈ (normalizePayload p).mappings) :
    noTrailingPad mp.filename = true ∧
    ∃ mp0 ∈ p.mappings,
      mp.filename = pyRstrip mp0.filename ∧
      ∃ t, mp0.filename = mp.filename ++ t ∧ ∀ c ∈ t, isPad c = true := by
  have hmem : mp ∈ p.mappings.map stripMapping :=
    (List.perm_insertionSort mappingRel _).mem_iff.mp hmp
  rcases List.mem_map.mp hmem with ⟨mp0, hmp0, rfl⟩
  refine ⟨pyRstrip_noTrailingPad _, mp0, hmp0, rfl,
    (mp0.filename.reverse.takeWhile isPad).reverse, ?_, ?_⟩
  · exact pyRstrip_append _
  · intro c hc
    exact pyRstrip_dropped_pad _ c hc

/-- Witness for C9: the spec scenario path with two trailing NUL bytes is
stripped to `data/file.bin`. -/
theorem c9_stripped_witness :
    noTrailingPad (FileMapping.mk cleanPath []).filename = true ∧
    ∃ mp0 ∈ payloadPad.mappings,
      (FileMapping.mk cleanPath []).filename = pyRstrip mp0.filename ∧
      ∃ t, mp0.filename = (FileMapping.mk cleanPath []).filename ++ t ∧
        ∀ c ∈ t, isPad c = true :=
  c9_stripped payloadPad ⟨cleanPath, []⟩ (by decide)

/-! ### Claim C10 -/

/-- C10: when the save operation exits early because the target manifest
file already exists, the key-store document is neither created nor modified
and no file-system event happens at all, even though a depot key was passed
in: the directory's `config.vdf` state is returned exactly as it was. -/
theorem c10_frame (df : List Nat → Payload → Payload)
    (sp : Payload → List Nat) (m : Manifest) (key : List Nat)
    (ro : Bool) (dir : AppDir)
    (h : manifestFileName m.depot_id m.gid ∈ dir.files) :
    (dmg_save_manifest df sp m key ro dir).dir.config = dir.config ∧
    (dmg_save_manifest df sp m key ro dir).trace = [] := by
  simp only [dmg_save_manifest]
  rw [if_pos h]
  exact ⟨rfl, rfl⟩

/-- Witness for C10: early exit with a key passed in and a key store
present; the store is untouched. -/
theorem c10_frame_witness :
    (dmg_save_manifest idDecrypt emptySerial mfx17 [0xaa] true
        dirHave).dir.config = dirHave.config ∧
    (dmg_save_manifest idDecrypt emptySerial mfx17 [0xaa] true
        dirHave).trace = [] :=
  c10_frame idDecrypt emptySerial mfx17 [0xaa] true dirHave (by decide)
